import Mathlib

/-!
Verification of the Query-Optimizer-for-a-Simple-DB repository.

The Python sources (`sql_parser.py`, `selectivity_scorer.py`,
`query_optimizer.py`) are shallowly embedded below.  Strings are modelled
as `List Char` (ASCII; the inputs of interest are ASCII, and Python's
Unicode-aware `\w`, `\s`, `str.lower` agree with the ASCII model there).
Parsed float values only ever flow into a string-keyed table lookup whose
keys contain no `.`.  Selectivity scores are IEEE-754 doubles in Python:
the three table factors are the doubles denoted by the decimal literals
0.1 … 1.0, identified below by their nominal value in thousandths
(0.1 ↦ 100, …), and the final score `(base * column) * value` is the
left-associated, correctly-rounded double product.  Each factor ranges
over a finite set — 4 base values, 5 column values, 3 value values — so
the 60 reachable score doubles are tabulated exactly: every one is a
dyadic rational that becomes an integer when scaled by 2^61, and
`scoreCondition` returns that integer.  Equality and order of these
integers coincide bit-for-bit with equality and order of the doubles the
program compares, including the pairs whose exact decimal products would
tie but whose rounded doubles differ, such as (0.1*0.4)*0.3 versus
(0.1*0.3)*0.4.
-/

/-! ## Character classes (`re` ASCII semantics) -/

/-- Python regex `\s` / `str.strip` whitespace, ASCII part:
space, tab, newline, carriage return, vertical tab, form feed. -/
def isPySpace (c : Char) : Bool :=
  c = ' ' || c = '\t' || c = '\n' || c = '\r' || c = '\x0b' || c = '\x0c'

/-- Python regex `\w`, ASCII part: letters, digits, underscore. -/
def isWordChar (c : Char) : Bool :=
  c.isAlpha || c.isDigit || c = '_'

/-- The operator class `[=<>!]` of `condition_pattern` in `sql_parser.py`. -/
def isOpChar (c : Char) : Bool :=
  c = '=' || c = '<' || c = '>' || c = '!'

/-- The single-quote character (codepoint 39). -/
def sqChar : Char := Char.ofNat 39

/-- The double-quote character (codepoint 34). -/
def dqChar : Char := Char.ofNat 34

/-- The quote class `['"]` of `condition_pattern`. -/
def isQuoteChar (c : Char) : Bool :=
  c = sqChar || c = dqChar

/-- The value class `[^'"\s]` of `condition_pattern`. -/
def isValueChar (c : Char) : Bool :=
  !isQuoteChar c && !isPySpace c

/-- ASCII lower-casing, as used by `str.lower()` and `re.IGNORECASE`
on the ASCII inputs this development deals with. -/
def lowerChar (c : Char) : Char :=
  if 'A' ≤ c && c ≤ 'Z' then Char.ofNat (c.toNat + 32) else c

/-- Case-insensitive character comparison (for `re.IGNORECASE`). -/
def charLowEq (c d : Char) : Bool :=
  lowerChar c = lowerChar d

/-- Remove trailing characters satisfying `p`. -/
def dropTrailing (p : Char → Bool) (l : List Char) : List Char :=
  (l.reverse.dropWhile p).reverse

/-- Python `str.strip()`: remove leading and trailing whitespace. -/
def pyStrip (l : List Char) : List Char :=
  dropTrailing isPySpace (l.dropWhile isPySpace)

/-! ## Data model (`sql_parser.py`) -/

/-- The dynamically typed `value` of a `Condition`: `int`, `float`
or `str`.  A float is kept as the source token it was parsed from; the
only observation the program makes of a float value is `str(...)` fed
into a table lookup, and every parser-produced float token contains a
`.` while no table key does, so the exact float-printing algorithm is
irrelevant to every theorem in this file. -/
inductive PyValue where
  | intVal (n : Int)
  | floatVal (tok : List Char)
  | strVal (s : List Char)
deriving DecidableEq, Repr

/-- The `Condition` dataclass of `sql_parser.py`. -/
structure Condition where
  column : List Char
  operator : List Char
  value : PyValue
  original_text : List Char
deriving DecidableEq, Repr

/-- The `ParsedQuery` dataclass of `sql_parser.py`. -/
structure ParsedQuery where
  table_name : List Char
  conditions : List Condition
  original_query : List Char
deriving DecidableEq, Repr

/-- The two `ValueError` cases raised by `SQLParser.parse`. -/
inductive ParseError where
  | invalidSelect
  | missingWhere
deriving DecidableEq, Repr

instance {ε α : Type} [DecidableEq ε] [DecidableEq α] : DecidableEq (Except ε α) :=
  fun a b =>
    match a, b with
    | .ok x, .ok y =>
      if h : x = y then .isTrue (by rw [h]) else .isFalse (fun hc => h (Except.ok.inj hc))
    | .error x, .error y =>
      if h : x = y then .isTrue (by rw [h]) else .isFalse (fun hc => h (Except.error.inj hc))
    | .ok _, .error _ => .isFalse (fun hc => Except.noConfusion hc)
    | .error _, .ok _ => .isFalse (fun hc => Except.noConfusion hc)

/-! ## The condition regex
`(\w+)\s*([=<>!]+)\s*(['"]?)([^'"\s]+)\3`, matched with `re.match`.

The classes `\w`, `\s`, `[=<>>!]` are pairwise disjoint, so the leading
`(\w+)\s*` and the whitespace runs match maximal runs deterministically.
The only live backtracking in the pattern is (a) the operator run
`([=<>!]+)` giving back characters to the value `([^'"\s]+)` (the value
class contains the operator characters), and (b) the optional quote
group: when the open quote is present but the closing backreference
`\3` fails, every shorter value run ends in front of a value-class
character (never the quote), and demoting the quote group to empty
makes the value start at the quote character, which the value class
excludes — so a failed quoted value fails the whole operator split. -/

/-- Match `\s*(['"]?)([^'"\s]+)\3` against `u`; returns
(was the value quoted?, value token). -/
def tryAfterOp (u : List Char) : Option (Bool × List Char) :=
  let v := u.dropWhile isPySpace
  match v with
  | [] => none
  | q :: v2 =>
    if isQuoteChar q then
      let val := v2.takeWhile isValueChar
      if val.isEmpty then none
      else if (v2.dropWhile isValueChar).head? = some q then some (true, val)
      else none
    else
      let val := v.takeWhile isValueChar
      if val.isEmpty then none else some (false, val)

/-- Backtracking over the operator run: try the operator lengths
`k, k-1, …, 1` (the regex tries the greedy, longest split first).
`opRun` is the maximal `[=<>!]` run and `rest` what follows it. -/
def tryOpSplits (opRun rest : List Char) : Nat → Option (List Char × Bool × List Char)
  | 0 => none
  | k + 1 =>
    match tryAfterOp (opRun.drop (k + 1) ++ rest) with
    | some (quoted, val) => some (opRun.take (k + 1), quoted, val)
    | none => tryOpSplits opRun rest k

/-- Match of `condition_pattern` (via `re.match`) against `s`: returns the groups
(column, operator, was-quoted, value token).  Trailing unmatched input
is ignored, exactly as with `re.match`. -/
def matchCondition (s : List Char) : Option (List Char × List Char × Bool × List Char) :=
  let col := s.takeWhile isWordChar
  if col.isEmpty then none
  else
    let r1 := (s.dropWhile isWordChar).dropWhile isPySpace
    let opRun := r1.takeWhile isOpChar
    if opRun.isEmpty then none
    else
      match tryOpSplits opRun (r1.dropWhile isOpChar) opRun.length with
      | some (op, quoted, val) => some (col, op, quoted, val)
      | none => none

/-! ## Python `int()` / `float()` on value tokens (ASCII) -/

/-- Strip one optional leading sign; returns (negative?, rest). -/
def splitSign : List Char → Bool × List Char
  | c :: r =>
    if c = '-' then (true, r)
    else if c = '+' then (false, r)
    else (false, c :: r)
  | [] => (false, [])

/-- Consume the continuation of a digit group `d (\_? d)*` after its
first digit: digits with single underscores strictly between digits.
Returns the unconsumed remainder. -/
def grpRemAux : List Char → List Char
  | [] => []
  | c :: rest =>
    if c.isDigit then grpRemAux rest
    else if c = '_' then
      match rest with
      | d :: r => if d.isDigit then grpRemAux r else c :: rest
      | [] => c :: rest
    else c :: rest

/-- Consume one digit group `d (\_? d)*`; `none` if no leading digit. -/
def grpRem : List Char → Option (List Char)
  | c :: rest => if c.isDigit then some (grpRemAux rest) else none
  | [] => none

/-- Numeric value of the digits of `l`, ignoring underscores. -/
def digitsVal (l : List Char) : Nat :=
  (l.filter Char.isDigit).foldl (fun acc c => acc * 10 + (c.toNat - 48)) 0

/-- Python `int(s)` on ASCII strings: optional surrounding whitespace,
one optional sign, then a digit group with underscores only between
digits; anything else raises `ValueError` (modelled as `none`). -/
def pyIntParse (tok : List Char) : Option Int :=
  let t := pyStrip tok
  let s := splitSign t
  match grpRem s.2 with
  | some [] =>
    let n : Int := digitsVal s.2
    some (if s.1 then -n else n)
  | _ => none

/-- Does the exponent-or-nothing tail of a float literal parse? -/
def expOk (l : List Char) : Bool :=
  match l with
  | [] => true
  | c :: rest =>
    if c = 'e' || c = 'E' then
      match grpRem (splitSign rest).2 with
      | some [] => true
      | _ => false
    else false

/-- Accepts `inf`, `infinity`, `nan`, case-insensitively (as `float` does). -/
def infNanOk (l : List Char) : Bool :=
  let low := l.map lowerChar
  low = "inf".data || low = "infinity".data || low = "nan".data

/-- Does Python `float(s)` succeed on the ASCII string `s`? -/
def pyFloatOk (tok : List Char) : Bool :=
  let t := pyStrip tok
  let r := (splitSign t).2
  match grpRem r with
  | some r1 =>
    match r1 with
    | c :: r2 =>
      if c = '.' then
        match grpRem r2 with
        | some r3 => expOk r3
        | none => expOk r2
      else expOk r1
    | [] => true
  | none =>
    match r with
    | c :: r2 =>
      if c = '.' then
        match grpRem r2 with
        | some r3 => expOk r3
        | none => false
      else infNanOk r
    | [] => false

/-- Does the token contain a `.`?  (`'.' in value` in the source.) -/
def hasDot (tok : List Char) : Bool :=
  tok.contains '.'

/-- The value-conversion block of `_parse_single_condition`
(`sql_parser.py` lines 120–131): quoted tokens stay strings; otherwise
tokens with a dot are tried as floats and the rest as ints, falling
back to strings when the conversion raises. -/
def convertValue (quoted : Bool) (tok : List Char) : PyValue :=
  if quoted then .strVal tok
  else if hasDot tok then
    if pyFloatOk tok then .floatVal tok else .strVal tok
  else
    match pyIntParse tok with
    | some n => .intVal n
    | none => .strVal tok

/-- Model of `SQLParser._parse_single_condition`: strip, match the condition
regex, convert the value; `None` when the regex does not match. -/
def parseSingleCondition (s : List Char) : Option Condition :=
  let t := pyStrip s
  match matchCondition t with
  | some (col, op, quoted, val) => some ⟨col, op, convertValue quoted val, t⟩
  | none => none

/-! ## Splitting the WHERE clause on `\s+AND\s+` (`re.split`, IGNORECASE) -/

/-- Try to match the separator `\s+AND\s+` at the head of `s`;
returns the remainder after the separator. -/
def sepRemainder (s : List Char) : Option (List Char) :=
  if (s.takeWhile isPySpace).isEmpty then none
  else
    match s.dropWhile isPySpace with
    | a :: n :: d :: rest =>
      if charLowEq a 'a' && charLowEq n 'n' && charLowEq d 'd' then
        if (rest.takeWhile isPySpace).isEmpty then none
        else some (rest.dropWhile isPySpace)
      else none
    | _ => none

/-- Left-to-right scan of `re.split`: at each position either the
separator matches (ending the current segment) or one character is
consumed.  `fuel` bounds the recursion; each step consumes at least
one character, so `s.length` fuel is enough. -/
def splitAndGo : Nat → List Char → List Char → List (List Char)
  | 0, acc, s => [acc.reverse ++ s]
  | fuel + 1, acc, s =>
    match s with
    | [] => [acc.reverse]
    | c :: rest =>
      match sepRemainder (c :: rest) with
      | some rem => acc.reverse :: splitAndGo fuel [] rem
      | none => splitAndGo fuel (c :: acc) rest

/-- Model of `re.split` on `\s+AND\s+` with `re.IGNORECASE`. -/
def splitAnd (s : List Char) : List (List Char) :=
  splitAndGo s.length [] s

/-- The per-fragment step of `_parse_conditions`: strip, skip empty
fragments, parse the fragment. -/
def fragParse (part : List Char) : Option Condition :=
  let p := pyStrip part
  if p.isEmpty then none else parseSingleCondition p

/-- Model of `SQLParser._parse_conditions`: split on AND, keep the fragments
that parse (malformed fragments are silently dropped). -/
def parseConditions (whereClause : List Char) : List Condition :=
  (splitAnd whereClause).filterMap fragParse

/-! ## `re.search` of the SELECT and WHERE patterns (IGNORECASE) -/

/-- Match a literal word case-insensitively at the head of the input;
returns the remainder. -/
def litMatch : List Char → List Char → Option (List Char)
  | [], s => some s
  | _ :: _, [] => none
  | c :: cs, d :: ds => if charLowEq d c then litMatch cs ds else none

/-- Match `\s+` at the head of the input; returns the remainder. -/
def spacePlus (s : List Char) : Option (List Char) :=
  match s with
  | c :: rest => if isPySpace c then some (rest.dropWhile isPySpace) else none
  | [] => none

/-- Match `SELECT\s+\*\s+FROM\s+(\w+)` at the head of `s`; returns the
captured table name.  All quantified runs are over pairwise disjoint
character classes, so greedy maximal runs are the only candidates. -/
def matchSelectAt (s : List Char) : Option (List Char) :=
  (litMatch "select".data s).bind fun r1 =>
  (spacePlus r1).bind fun r2 =>
  match r2 with
  | c :: r3 =>
    if c = '*' then
      (spacePlus r3).bind fun r4 =>
      (litMatch "from".data r4).bind fun r5 =>
      (spacePlus r5).bind fun r6 =>
        let w := r6.takeWhile isWordChar
        if w.isEmpty then none else some w
    else none
  | [] => none

/-- Model of `re.search(select_pattern, q, re.IGNORECASE)`: first position where
the SELECT pattern matches; returns the captured table name. -/
def searchSelect : List Char → Option (List Char)
  | [] => none
  | c :: rest =>
    match matchSelectAt (c :: rest) with
    | some t => some t
    | none => searchSelect rest

/-- The backtracking tail of `WHERE\s+(.+)`: `rest` is the input after
the literal `WHERE`.  The greedy `\s+` tries the whitespace-run lengths
`k, k-1, …, 1`; `(.+)` then needs a first character that is not a
newline, and captures greedily up to the next newline or the end. -/
def whereKLoop (rest : List Char) : Nat → Option (List Char)
  | 0 => none
  | k + 1 =>
    match (rest.drop (k + 1)).head? with
    | some c =>
      if c = '\n' then whereKLoop rest k
      else some ((rest.drop (k + 1)).takeWhile (fun ch => ch ≠ '\n'))
    | none => whereKLoop rest k

/-- Match `WHERE\s+(.+)` at the head of `s`; returns the captured
WHERE clause. -/
def matchWhereAt (s : List Char) : Option (List Char) :=
  (litMatch "where".data s).bind fun rest =>
    whereKLoop rest (rest.takeWhile isPySpace).length

/-- Model of `re.search(where_pattern, q, re.IGNORECASE)`: note that this finds
a WHERE clause anywhere in the input, not only after the SELECT. -/
def searchWhere : List Char → Option (List Char)
  | [] => none
  | c :: rest =>
    match matchWhereAt (c :: rest) with
    | some g => some g
    | none => searchWhere rest

/-- Model of `SQLParser.parse`: strip, locate the SELECT pattern (else
`invalidSelect`), locate a WHERE clause (else `missingWhere`), parse
the conditions. -/
def parse (query : List Char) : Except ParseError ParsedQuery :=
  let q := pyStrip query
  match searchSelect q with
  | none => .error .invalidSelect
  | some table =>
    match searchWhere q with
    | none => .error .missingWhere
    | some wc => .ok ⟨table, parseConditions wc, q⟩

/-! ## Selectivity scorer (`selectivity_scorer.py`)

The three lookup tables hold the doubles denoted by the decimal
literals 0.1 … 1.0; a table result is identified by its nominal value
in thousandths (0.1 ↦ 100, 0.2 ↦ 200, …), which is an exact label of
the float literal it stands for.  The final score is the IEEE-754
double `(base_score * column_modifier) * value_modifier` (Python
multiplies left to right); it is modelled exactly by `floatScoreTable`
below, which maps each of the 60 reachable factor triples to the
integer value of the correctly rounded double product scaled by 2^61
(every such product is a dyadic rational m·2^-61 with 0.003 ≤ m·2^-61,
so the scaling is exact).  Comparisons of these integers agree exactly
— ties included — with the comparisons the program performs on its
doubles. -/

/-- The table `SelectivityScorer.selectivity_rules` (0.1 ↦ 100, …). -/
def selectivity_rules : List (List Char × Nat) :=
  [("=".data, 100), ("==".data, 100),
   (">".data, 300), (">=".data, 300), ("<".data, 300), ("<=".data, 300),
   ("!=".data, 500), ("<>".data, 500),
   ("LIKE".data, 700), ("ILIKE".data, 700)]

/-- The lookup `selectivity_rules.get(condition.operator, 0.5)`. -/
def baseScore (op : List Char) : Nat :=
  (selectivity_rules.lookup op).getD 500

/-- The table `SelectivityScorer.column_modifiers` (0.1 ↦ 100, …). -/
def column_modifiers : List (List Char × Nat) :=
  [("id".data, 100), ("email".data, 100), ("username".data, 100),
   ("ssn".data, 100), ("phone".data, 100),
   ("country".data, 200), ("state".data, 200), ("city".data, 200),
   ("department".data, 200), ("category".data, 200),
   ("gender".data, 400), ("status".data, 400), ("type".data, 400),
   ("level".data, 400),
   ("age".data, 600), ("salary".data, 600), ("score".data, 600),
   ("rating".data, 600)]

/-- The lookup `column_modifiers.get(condition.column.lower(), 0.3)`. -/
def columnModifier (col : List Char) : Nat :=
  (column_modifiers.lookup (col.map lowerChar)).getD 300

/-- The table `SelectivityScorer.value_modifiers`, keys exactly as written in the
source — note that `US`, `USA` and `United States` are not lower-case.
(0.3 ↦ 300, 0.4 ↦ 400.) -/
def value_modifiers : List (List Char × Nat) :=
  [("US".data, 300), ("USA".data, 300), ("United States".data, 300),
   ("active".data, 300), ("enabled".data, 300), ("true".data, 300),
   ("1".data, 300),
   ("18".data, 400), ("21".data, 400), ("25".data, 400), ("30".data, 400),
   ("35".data, 400), ("40".data, 400), ("50".data, 400)]

/-- Python `str(value)` for the three value variants.  `str` of an int
is its decimal form; `str` of a parser-produced float is approximated
by its source token — both contain a `.` like every Python float
string, and no `value_modifiers` key contains a `.`, so the lookup
below is unaffected by the approximation. -/
def strOfValue : PyValue → List Char
  | .intVal n => (toString n).data
  | .floatVal tok => tok
  | .strVal s => s

/-- The lookup `value_modifiers.get(str(condition.value).lower(), 1.0)`
(1.0 ↦ 1000). -/
def valueModifier (v : PyValue) : Nat :=
  (value_modifiers.lookup ((strOfValue v).map lowerChar)).getD 1000

/-- The 60 reachable selectivity scores, exactly as IEEE-754 doubles.
Key: (base, column, value) factors in thousandths, covering every value
the three lookups can return (bases 0.1/0.3/0.5/0.7 including the 0.5
default, columns 0.1/0.2/0.3/0.4/0.6 including the 0.3 default, values
0.3/0.4/1.0 including the 1.0 default).  Entry: the exact integer value
of the correctly rounded double `(base * column) * value` multiplied by
2^61 — e.g. (0.1*0.4)*0.3 rounds to 27670116110564332·2^-61 while
(0.1*0.3)*0.4 rounds to 27670116110564328·2^-61, so these two score
values differ even though their exact decimal products are equal. -/
def floatScoreTable : List ((Nat × Nat × Nat) × Nat) :=
  [((100, 100, 300), 6917529027641083),
   ((100, 100, 400), 9223372036854778),
   ((100, 100, 1000), 23058430092136944),
   ((100, 200, 300), 13835058055282166),
   ((100, 200, 400), 18446744073709556),
   ((100, 200, 1000), 46116860184273888),
   ((100, 300, 300), 20752587082923244),
   ((100, 300, 400), 27670116110564328),
   ((100, 300, 1000), 69175290276410816),
   ((100, 400, 300), 27670116110564332),
   ((100, 400, 400), 36893488147419112),
   ((100, 400, 1000), 92233720368547776),
   ((100, 600, 300), 41505174165846488),
   ((100, 600, 400), 55340232221128656),
   ((100, 600, 1000), 138350580552821632),
   ((300, 100, 300), 20752587082923244),
   ((300, 100, 400), 27670116110564328),
   ((300, 100, 1000), 69175290276410816),
   ((300, 200, 300), 41505174165846488),
   ((300, 200, 400), 55340232221128656),
   ((300, 200, 1000), 138350580552821632),
   ((300, 300, 300), 62257761248769736),
   ((300, 300, 400), 83010348331692976),
   ((300, 300, 1000), 207525870829232448),
   ((300, 400, 300), 83010348331692976),
   ((300, 400, 400), 110680464442257312),
   ((300, 400, 1000), 276701161105643264),
   ((300, 600, 300), 124515522497539472),
   ((300, 600, 400), 166020696663385952),
   ((300, 600, 1000), 415051741658464896),
   ((500, 100, 300), 34587645138205408),
   ((500, 100, 400), 46116860184273888),
   ((500, 100, 1000), 115292150460684704),
   ((500, 200, 300), 69175290276410816),
   ((500, 200, 400), 92233720368547776),
   ((500, 200, 1000), 230584300921369408),
   ((500, 300, 300), 103762935414616224),
   ((500, 300, 400), 138350580552821632),
   ((500, 300, 1000), 345876451382054080),
   ((500, 400, 300), 138350580552821632),
   ((500, 400, 400), 184467440737095552),
   ((500, 400, 1000), 461168601842738816),
   ((500, 600, 300), 207525870829232448),
   ((500, 600, 400), 276701161105643264),
   ((500, 600, 1000), 691752902764108160),
   ((700, 100, 300), 48422703193487568),
   ((700, 100, 400), 64563604257983424),
   ((700, 100, 1000), 161409010644958560),
   ((700, 200, 300), 96845406386975136),
   ((700, 200, 400), 129127208515966848),
   ((700, 200, 1000), 322818021289917120),
   ((700, 300, 300), 145268109580462720),
   ((700, 300, 400), 193690812773950304),
   ((700, 300, 1000), 484227031934875712),
   ((700, 400, 300), 193690812773950272),
   ((700, 400, 400), 258254417031933696),
   ((700, 400, 1000), 645636042579834240),
   ((700, 600, 300), 290536219160925440),
   ((700, 600, 400), 387381625547900608),
   ((700, 600, 1000), 968454063869751424)]

/-- Model of `SelectivityScorer.score_condition`: the final score
`base_score * column_modifier * value_modifier` as the exact IEEE-754
double the program computes, scaled by 2^61.  The triple of factors is
always a key of `floatScoreTable`, so the 0 default is never taken. -/
def scoreCondition (c : Condition) : Nat :=
  (floatScoreTable.lookup
    (baseScore c.operator, columnModifier c.column, valueModifier c.value)).getD 0

/-! ## Stable sort

`sorted(..., key=lambda x: x.score)` is a stable sort by the score.
The output of a stable sort under a total preorder is unique, so any
stable sorting algorithm is a faithful model of Python's; the
insertion sort below is used because it evaluates by kernel reduction.
Its sortedness, permutation and stability are proved further down. -/

/-- Insert `x` in front of the first element `y` with `le x y`;
elements equivalent to `x` that are already present stay in front. -/
def insertStable {α : Type} (le : α → α → Bool) (x : α) : List α → List α
  | [] => [x]
  | y :: ys => if le x y then x :: y :: ys else y :: insertStable le x ys

/-- Stable insertion sort. -/
def stableSort {α : Type} (le : α → α → Bool) : List α → List α
  | [] => []
  | x :: xs => insertStable le x (stableSort le xs)

/-- The comparison used by `_apply_optimization_rules`:
lower score sorts first. -/
def condLe (a b : Condition) : Bool :=
  decide (scoreCondition a ≤ scoreCondition b)

/-- Model of `QueryOptimizer._apply_optimization_rules`: score each condition
and stable-sort ascending by score. -/
def applyOptimizationRules (conds : List Condition) : List Condition :=
  stableSort condLe conds

/-! ## Execution plan and summary (`query_optimizer.py`) -/

/-- One step of the execution plan: the `FILTER`/`RETURN`/`SCAN`
dictionaries of `_create_execution_plan` / `_create_unoptimized_query`,
as a tagged union (the `operation` key becomes the constructor). -/
inductive PlanStep where
  | filterStep (step : Nat) (condition : List Char) (column : List Char)
      (op : List Char) (value : PyValue) (description : List Char)
  | returnStep (step : Nat) (description : List Char)
  | scanStep (step : Nat) (description : List Char)
deriving DecidableEq, Repr

/-- Model of `QueryOptimizer._create_execution_plan`: one FILTER step per
condition, numbered from 1, then a final RETURN step. -/
def createExecutionPlan (conds : List Condition) : List PlanStep :=
  (conds.enumFrom 1).map
    (fun p => PlanStep.filterStep p.1 p.2.original_text p.2.column p.2.operator
      p.2.value ("Apply filter: ".data ++ p.2.original_text))
  ++ [PlanStep.returnStep (conds.length + 1) "Return filtered results".data]

/-- The numbered condition listing used by the optimization summary:
`  {i}. {original_text}\n` for each condition, numbered from 1. -/
def renderConditionList (conds : List Condition) : List Char :=
  (conds.enumFrom 1).foldl
    (fun acc p =>
      acc ++ "  ".data ++ (toString p.1).data ++ ". ".data ++
        p.2.original_text ++ ['\n'])
    []

/-- Model of `QueryOptimizer._generate_optimization_summary`. -/
def generateOptimizationSummary (orig opt : List Condition) : List Char :=
  if orig.length ≤ 1 then
    "No optimization needed - single condition or no conditions".data
  else if orig = opt then
    "No optimization needed - conditions already in optimal order".data
  else
    "Query optimization applied:\n- Reordered ".data ++
    (toString orig.length).data ++
    " conditions for better performance\n- Most selective conditions will be applied first\n- Expected performance improvement: 20-80% (depending on data distribution)\n\nOriginal order:\n".data ++
    renderConditionList orig ++
    "\nOptimized order:\n".data ++
    renderConditionList opt

/-- The `OptimizedQuery` dataclass of `query_optimizer.py`. -/
structure OptimizedQuery where
  original_query : ParsedQuery
  optimized_conditions : List Condition
  execution_plan : List PlanStep
  optimization_summary : List Char
deriving DecidableEq, Repr

/-- Model of `QueryOptimizer._create_unoptimized_query`: SCAN + RETURN plan for
a query without conditions. -/
def createUnoptimizedQuery (pq : ParsedQuery) : OptimizedQuery :=
  ⟨pq, [],
   [PlanStep.scanStep 1 ("Scan table \"".data ++ pq.table_name ++ "\"".data),
    PlanStep.returnStep 2 "Return all results".data],
   "No WHERE conditions - full table scan".data⟩

/-- Model of `QueryOptimizer.optimize`. -/
def optimize (pq : ParsedQuery) : OptimizedQuery :=
  if pq.conditions.isEmpty then createUnoptimizedQuery pq
  else
    let optimized := applyOptimizationRules pq.conditions
    ⟨pq, optimized, createExecutionPlan optimized,
     generateOptimizationSummary pq.conditions optimized⟩

/-! ## Substring containment (used to state what a summary "states") -/

/-- Is `pre` an initial segment of `l`? -/
def startsWithSeg {α : Type} [DecidableEq α] : List α → List α → Bool
  | _, [] => true
  | [], _ :: _ => false
  | a :: as, b :: bs => if a = b then startsWithSeg as bs else false

/-- Does `sub` occur as a contiguous segment of `l`? -/
def containsSeg {α : Type} [DecidableEq α] : List α → List α → Bool
  | [], sub => startsWithSeg [] sub
  | a :: t, sub => startsWithSeg (a :: t) sub || containsSeg t sub

/-! ## Properties of the stable sort -/

theorem insertStable_perm {α : Type} (le : α → α → Bool) (x : α) (l : List α) :
    (insertStable le x l).Perm (x :: l) := by
  induction l with
  | nil => simp [insertStable]
  | cons y ys ih =>
    simp only [insertStable]
    split
    · exact List.Perm.refl _
    · exact (ih.cons y).trans (List.Perm.swap x y ys)

theorem stableSort_perm {α : Type} (le : α → α → Bool) (l : List α) :
    (stableSort le l).Perm l := by
  induction l with
  | nil => simp [stableSort]
  | cons x xs ih =>
    exact (insertStable_perm le x (stableSort le xs)).trans (ih.cons x)

theorem mem_insertStable {α : Type} (le : α → α → Bool) (x z : α) (l : List α) :
    z ∈ insertStable le x l ↔ z = x ∨ z ∈ l := by
  rw [(insertStable_perm le x l).mem_iff]
  simp

theorem pairwise_insertStable {α : Type} (le : α → α → Bool)
    (htrans : ∀ a b c, le a b = true → le b c = true → le a c = true)
    (htot : ∀ a b, le a b = false → le b a = true)
    (x : α) (l : List α) (hl : l.Pairwise (fun a b => le a b = true)) :
    (insertStable le x l).Pairwise (fun a b => le a b = true) := by
  induction l with
  | nil => simp [insertStable]
  | cons y ys ih =>
    rw [List.pairwise_cons] at hl
    obtain ⟨hy, hys⟩ := hl
    simp only [insertStable]
    split
    · rename_i h
      refine List.pairwise_cons.mpr ⟨?_, List.pairwise_cons.mpr ⟨hy, hys⟩⟩
      intro z hz
      rcases List.mem_cons.mp hz with rfl | hz
      · exact h
      · exact htrans x y z h (hy z hz)
    · rename_i h
      have hf : le x y = false := by simpa using h
      refine List.pairwise_cons.mpr ⟨?_, ih hys⟩
      intro z hz
      rcases (mem_insertStable le x z ys).mp hz with hz | hz
      · rw [hz]; exact htot x y hf
      · exact hy z hz

theorem pairwise_stableSort {α : Type} (le : α → α → Bool)
    (htrans : ∀ a b c, le a b = true → le b c = true → le a c = true)
    (htot : ∀ a b, le a b = false → le b a = true) (l : List α) :
    (stableSort le l).Pairwise (fun a b => le a b = true) := by
  induction l with
  | nil => simp [stableSort]
  | cons x xs ih => exact pairwise_insertStable le htrans htot x _ ih

theorem filter_insertStable_neg {α : Type} (le : α → α → Bool) (p : α → Bool)
    (x : α) (hx : p x = false) (l : List α) :
    (insertStable le x l).filter p = l.filter p := by
  induction l with
  | nil => simp [insertStable, List.filter, hx]
  | cons y ys ih =>
    simp only [insertStable]
    split
    · simp [List.filter_cons, hx]
    · simp [List.filter_cons, ih]

theorem filter_insertStable_pos {α : Type} (le : α → α → Bool) (p : α → Bool)
    (x : α) (hx : p x = true) (l : List α)
    (hskip : ∀ y ∈ l, le x y = false → p y = false) :
    (insertStable le x l).filter p = x :: l.filter p := by
  induction l with
  | nil => simp [insertStable, List.filter, hx]
  | cons y ys ih =>
    simp only [insertStable]
    split
    · simp [List.filter_cons, hx]
    · rename_i h
      have hf : le x y = false := by simpa using h
      have hpy : p y = false := hskip y (List.mem_cons_self y ys) hf
      have := ih (fun z hz => hskip z (List.mem_cons_of_mem y hz))
      simp [List.filter_cons, hpy, this]

theorem stableSort_filter_fiber {α : Type} (f : α → Nat) (s : Nat) (l : List α) :
    (stableSort (fun a b => decide (f a ≤ f b)) l).filter (fun c => decide (f c = s))
      = l.filter (fun c => decide (f c = s)) := by
  induction l with
  | nil => simp [stableSort]
  | cons x xs ih =>
    simp only [stableSort]
    by_cases hx : f x = s
    · rw [filter_insertStable_pos _ _ x (by simp [hx]) _ ?_]
      · rw [ih]; simp [hx]
      · intro y hy hle
        simp only [decide_eq_false_iff_not, not_le] at hle
        have : f y ≠ s := by omega
        simp [this]
    · rw [filter_insertStable_neg _ _ x (by simp [hx])]
      rw [ih]; simp [hx]

/-- C4: for every `ParsedQuery`, the `optimized_conditions` list returned
by `optimize` is a permutation of the input `conditions` list — the two
lists are equal as multisets, for all inputs (both the scoring branch and
the no-conditions branch). -/
theorem optimize_conditions_perm (pq : ParsedQuery) :
    (optimize pq).optimized_conditions.Perm pq.conditions := by
  unfold optimize
  split
  · rename_i h
    rw [List.isEmpty_iff] at h
    simp [createUnoptimizedQuery, h]
  · exact stableSort_perm condLe pq.conditions

/-- C5: for every `ParsedQuery`, the `optimized_conditions` returned by
`optimize` are pairwise ordered by selectivity score (so the score at each
position is at most the score at the next), and the sort is stable: for
every score value, the sublist of conditions having that score is exactly
the same, in the same order, as in the input list.  `scoreCondition` here
is the program's IEEE-754 double score represented exactly (scaled by
2^61), so equal model scores are exactly the bitwise-equal doubles the
program's stable sort keeps in input order, and pairs whose doubles
differ — such as (0.1*0.4)*0.3 versus (0.1*0.3)*0.4 — are not ties. -/
theorem optimize_sorted_and_stable (pq : ParsedQuery) :
    List.Pairwise (fun a b => scoreCondition a ≤ scoreCondition b)
        (optimize pq).optimized_conditions ∧
      ∀ s : Nat,
        (optimize pq).optimized_conditions.filter (fun c => decide (scoreCondition c = s))
          = pq.conditions.filter (fun c => decide (scoreCondition c = s)) := by
  unfold optimize
  split
  · rename_i h
    rw [List.isEmpty_iff] at h
    simp [createUnoptimizedQuery, h]
  · constructor
    · have := pairwise_stableSort condLe
        (fun a b c hab hbc => by
          simp only [condLe, decide_eq_true_eq] at *; omega)
        (fun a b hab => by
          simp only [condLe, decide_eq_true_eq, decide_eq_false_iff_not] at *; omega)
        pq.conditions
      simp only [applyOptimizationRules]
      exact this.imp (fun h => by simpa [condLe] using h)
    · intro s
      exact stableSort_filter_fiber scoreCondition s pq.conditions

/-! ## Concrete evaluations -/

/-- C1: the `value_modifiers` table does contain the key `US` with
modifier 0.3 (300 in thousandths), but `score_condition` looks up the
case-folded string form of the value, and `"US".lower()` is `us`, which
is not a key — so scoring `country = 'US'` applies a value modifier of
1.0 (1000), not 0.3, and the final score is the double (0.1*0.2)*1.0
≈ 0.02 (exactly 46116860184273888·2^-61) instead of the ≈ 0.006 the
table entry intends.  The `US`/`USA`/`United States` entries are
unreachable through `score_condition`. -/
theorem us_value_modifier_is_not_applied :
    List.lookup "US".data value_modifiers = some 300 ∧
    valueModifier (.strVal "US".data) = 1000 ∧
    scoreCondition ⟨"country".data, "=".data, .strVal "US".data,
      "country = 'US'".data⟩ = 46116860184273888 ∧
    valueModifier (.strVal "USA".data) = 1000 ∧
    valueModifier (.strVal "United States".data) = 1000 ∧
    valueModifier (.strVal "active".data) = 300 := by
  decide

/-- C2 counterexample: the fragment `name = 'John Smith'` has the shape
`<identifier> <operator> <quote><text><same-quote>` with quoted text
`John Smith`, but `_parse_single_condition` rejects it (the value class
`[^'"\s]+` of `condition_pattern` excludes whitespace even inside
quotes), so no `Condition` is produced. -/
theorem quoted_value_with_space_fails :
    parseSingleCondition "name = 'John Smith'".data = none := by
  decide

/-- C3 counterexample: `SELECT * FROM users WHERE @@@` parses
successfully (the WHERE clause is present), yet the resulting
`conditions` list is empty, because the only fragment `@@@` fails the
single-condition grammar and is silently dropped. -/
theorem parse_can_succeed_with_no_conditions :
    parse "SELECT * FROM users WHERE @@@".data =
      .ok ⟨"users".data, [], "SELECT * FROM users WHERE @@@".data⟩ := by
  decide

/-- C7 counterexample: the unquoted token `abc` contains no `.`, yet
the parsed value is the string `abc`, not an integer — `int("abc")`
raises and the code falls back to a string. -/
theorem dotless_token_can_stay_string :
    parseSingleCondition "name = abc".data =
      some ⟨"name".data, "=".data, .strVal "abc".data, "name = abc".data⟩ ∧
    hasDot "abc".data = false := by
  decide

/-- C8 counterexample: in `WHERE a=1 SELECT * FROM t` the SELECT clause
is found (by `re.search`, anywhere in the input) and no WHERE clause
follows it — the only WHERE text precedes it — yet `parse` succeeds
instead of failing with the MissingWhere error, because the WHERE
pattern is also searched anywhere in the input. -/
theorem where_clause_need_not_follow_select :
    parse "WHERE a=1 SELECT * FROM t".data =
      .ok ⟨"t".data, [⟨"a".data, "=".data, .intVal 1, "a=1 SELECT * FROM t".data⟩],
        "WHERE a=1 SELECT * FROM t".data⟩ := by
  decide

/-- C9: parsing and optimizing
`SELECT * FROM users WHERE age > 25 AND country = 'US'` puts
`country = 'US'` before `age > 25` in the optimized order, produces an
execution plan of exactly three steps — two FILTER steps followed by
one RETURN step — and an optimization summary stating that 2 conditions
were reordered. -/
theorem demo_query_scenario :
    parse "SELECT * FROM users WHERE age > 25 AND country = 'US'".data =
      .ok ⟨"users".data,
        [⟨"age".data, ">".data, .intVal 25, "age > 25".data⟩,
         ⟨"country".data, "=".data, .strVal "US".data, "country = 'US'".data⟩],
        "SELECT * FROM users WHERE age > 25 AND country = 'US'".data⟩ ∧
    (optimize ⟨"users".data,
        [⟨"age".data, ">".data, .intVal 25, "age > 25".data⟩,
         ⟨"country".data, "=".data, .strVal "US".data, "country = 'US'".data⟩],
        "SELECT * FROM users WHERE age > 25 AND country = 'US'".data⟩).optimized_conditions =
      [⟨"country".data, "=".data, .strVal "US".data, "country = 'US'".data⟩,
       ⟨"age".data, ">".data, .intVal 25, "age > 25".data⟩] ∧
    (optimize ⟨"users".data,
        [⟨"age".data, ">".data, .intVal 25, "age > 25".data⟩,
         ⟨"country".data, "=".data, .strVal "US".data, "country = 'US'".data⟩],
        "SELECT * FROM users WHERE age > 25 AND country = 'US'".data⟩).execution_plan =
      [.filterStep 1 "country = 'US'".data "country".data "=".data (.strVal "US".data)
        "Apply filter: country = 'US'".data,
       .filterStep 2 "age > 25".data "age".data ">".data (.intVal 25)
        "Apply filter: age > 25".data,
       .returnStep 3 "Return filtered results".data] ∧
    containsSeg
      (optimize ⟨"users".data,
        [⟨"age".data, ">".data, .intVal 25, "age > 25".data⟩,
         ⟨"country".data, "=".data, .strVal "US".data, "country = 'US'".data⟩],
        "SELECT * FROM users WHERE age > 25 AND country = 'US'".data⟩).optimization_summary
      "Reordered 2 conditions".data = true := by
  decide

/-! ## Stripping lemmas and the round-trip property -/

theorem dropWhile_head?_false {p : Char → Bool} {l : List Char} {c : Char}
    (h : (l.dropWhile p).head? = some c) : p c = false := by
  have hm := List.head?_dropWhile_not p l
  rw [h] at hm
  exact hm

theorem getLast?_dropWhile_of_ne_nil {p : Char → Bool} {l : List Char}
    (h : l.dropWhile p ≠ []) : (l.dropWhile p).getLast? = l.getLast? := by
  obtain ⟨t, ht⟩ := List.dropWhile_suffix (l := l) p
  conv_rhs => rw [← ht]
  rw [List.getLast?_append]
  cases hg : (l.dropWhile p).getLast? with
  | none => exact absurd (List.getLast?_eq_none_iff.mp hg) h
  | some x => rfl

theorem pyStrip_head?_false {l : List Char} {c : Char}
    (h : (pyStrip l).head? = some c) : isPySpace c = false := by
  unfold pyStrip dropTrailing at h
  rw [List.head?_reverse] at h
  have hne : (l.dropWhile isPySpace).reverse.dropWhile isPySpace ≠ [] := by
    intro hnil
    rw [hnil] at h
    exact Option.noConfusion h
  rw [getLast?_dropWhile_of_ne_nil hne, List.getLast?_reverse] at h
  exact dropWhile_head?_false h

theorem pyStrip_getLast?_false {l : List Char} {c : Char}
    (h : (pyStrip l).getLast? = some c) : isPySpace c = false := by
  unfold pyStrip dropTrailing at h
  rw [List.getLast?_reverse] at h
  exact dropWhile_head?_false h

theorem pyStrip_eq_self {l : List Char}
    (hh : ∀ c, l.head? = some c → isPySpace c = false)
    (hl : ∀ c, l.getLast? = some c → isPySpace c = false) : pyStrip l = l := by
  unfold pyStrip dropTrailing
  have h1 : l.dropWhile isPySpace = l := by
    cases l with
    | nil => simp
    | cons c r => simp [List.dropWhile_cons, hh c rfl]
  rw [h1]
  have h2 : l.reverse.dropWhile isPySpace = l.reverse := by
    cases hr : l.reverse with
    | nil => simp
    | cons c r =>
      have hc : l.getLast? = some c := by rw [← List.head?_reverse, hr]; rfl
      rw [List.dropWhile_cons, hl c hc]
      simp
  rw [h2, List.reverse_reverse]

theorem pyStrip_idem (l : List Char) : pyStrip (pyStrip l) = pyStrip l :=
  pyStrip_eq_self (fun _ h => pyStrip_head?_false h) (fun _ h => pyStrip_getLast?_false h)

theorem parseSingle_original_text {s : List Char} {c : Condition}
    (h : parseSingleCondition s = some c) : c.original_text = pyStrip s := by
  simp only [parseSingleCondition] at h
  cases hm : matchCondition (pyStrip s) with
  | none => rw [hm] at h; exact Option.noConfusion h
  | some g =>
    obtain ⟨col, op, quoted, val⟩ := g
    rw [hm] at h
    have := Option.some.inj h
    rw [← this]

theorem parseSingle_roundtrip {s : List Char} {c : Condition}
    (h : parseSingleCondition s = some c) :
    parseSingleCondition c.original_text = some c := by
  rw [parseSingle_original_text h]
  simp only [parseSingleCondition, pyStrip_idem] at *
  exact h

/-- C6: every `Condition` produced by a successful `parse` round-trips:
re-parsing its `original_text` as a single condition fragment succeeds
and yields the same `Condition` again (in particular identical
`column`, `operator` and `value`). -/
theorem parsed_condition_roundtrip (q : List Char) (pq : ParsedQuery)
    (hpq : parse q = .ok pq) (c : Condition) (hc : c ∈ pq.conditions) :
    parseSingleCondition c.original_text = some c := by
  simp only [parse] at hpq
  cases hs : searchSelect (pyStrip q) with
  | none => rw [hs] at hpq; exact Except.noConfusion hpq
  | some table =>
    rw [hs] at hpq
    cases hw : searchWhere (pyStrip q) with
    | none => rw [hw] at hpq; exact Except.noConfusion hpq
    | some wc =>
      rw [hw] at hpq
      have hpq' := Except.ok.inj hpq
      rw [← hpq'] at hc
      simp only [parseConditions] at hc
      obtain ⟨part, _, hfp⟩ := List.mem_filterMap.mp hc
      simp only [fragParse] at hfp
      split at hfp
      · exact Option.noConfusion hfp
      · exact parseSingle_roundtrip hfp

/-- Witness for C6 at a concrete query. -/
theorem parsed_condition_roundtrip_witness :
    parseSingleCondition
        (Condition.original_text ⟨"age".data, ">".data, .intVal 25, "age > 25".data⟩)
      = some ⟨"age".data, ">".data, .intVal 25, "age > 25".data⟩ :=
  parsed_condition_roundtrip "SELECT * FROM users WHERE age > 25".data
    ⟨"users".data, [⟨"age".data, ">".data, .intVal 25, "age > 25".data⟩],
      "SELECT * FROM users WHERE age > 25".data⟩
    (by decide) _ (by decide)

/-! ## Shape of a successful single-condition parse -/

theorem parseSingle_shape {s : List Char} {c : Condition}
    (h : parseSingleCondition s = some c) :
    ∃ col op quoted val,
      matchCondition (pyStrip s) = some (col, op, quoted, val) ∧
        c = ⟨col, op, convertValue quoted val, pyStrip s⟩ := by
  simp only [parseSingleCondition] at h
  cases hm : matchCondition (pyStrip s) with
  | none => rw [hm] at h; exact Option.noConfusion h
  | some g =>
    obtain ⟨col, op, quoted, val⟩ := g
    rw [hm] at h
    exact ⟨col, op, quoted, val, rfl, (Option.some.inj h).symm⟩

/-- C3 (amended): after a successful `parse` the `conditions` list may
be empty; it is empty exactly when every AND-fragment of the extracted
WHERE clause fails the single-condition grammar (each such fragment is
silently dropped), as happens e.g. for `SELECT * FROM users WHERE @@@`. -/
theorem conditions_empty_iff_all_fragments_fail (q : List Char) (pq : ParsedQuery)
    (hpq : parse q = .ok pq) :
    ∃ wc, searchWhere (pyStrip q) = some wc ∧
      (pq.conditions = [] ↔ ∀ part ∈ splitAnd wc, fragParse part = none) := by
  simp only [parse] at hpq
  cases hs : searchSelect (pyStrip q) with
  | none => rw [hs] at hpq; exact Except.noConfusion hpq
  | some table =>
    rw [hs] at hpq
    cases hw : searchWhere (pyStrip q) with
    | none => rw [hw] at hpq; exact Except.noConfusion hpq
    | some wc =>
      rw [hw] at hpq
      have hpq' := Except.ok.inj hpq
      refine ⟨wc, rfl, ?_⟩
      rw [← hpq']
      simp only [parseConditions]
      exact List.filterMap_eq_nil_iff

/-- Witness for C3 (amended): the query `SELECT * FROM users WHERE @@@`
parses successfully with an empty condition list. -/
theorem conditions_empty_iff_all_fragments_fail_witness :
    ∃ wc, searchWhere (pyStrip "SELECT * FROM users WHERE @@@".data) = some wc ∧
      ((ParsedQuery.conditions
          ⟨"users".data, [], "SELECT * FROM users WHERE @@@".data⟩) = [] ↔
        ∀ part ∈ splitAnd wc, fragParse part = none) :=
  conditions_empty_iff_all_fragments_fail "SELECT * FROM users WHERE @@@".data
    ⟨"users".data, [], "SELECT * FROM users WHERE @@@".data⟩ (by decide)

/-- C8 (amended): `parse` fails with `invalidSelect` exactly when the
`SELECT * FROM <identifier>` pattern occurs nowhere in the (stripped)
input — not necessarily as a prefix; it fails with `missingWhere`
exactly when a SELECT pattern is found but `WHERE` followed by
whitespace and a further non-newline character occurs nowhere in the
input — the WHERE clause may appear anywhere, even before the SELECT.
The two failures are distinguishable, and a failing `parse` never also
returns a `ParsedQuery`. -/
theorem parse_error_taxonomy (q : List Char) :
    (parse q = .error .invalidSelect ↔ searchSelect (pyStrip q) = none) ∧
    (parse q = .error .missingWhere ↔
      (searchSelect (pyStrip q)).isSome = true ∧ searchWhere (pyStrip q) = none) ∧
    (∀ pq : ParsedQuery, parse q = .ok pq → ∀ e, parse q ≠ .error e) := by
  cases hs : searchSelect (pyStrip q) with
  | none => simp [parse, hs]
  | some table =>
    cases hw : searchWhere (pyStrip q) with
    | none => simp [parse, hs, hw]
    | some wc => simp [parse, hs, hw]

/-- Witness for C8 (amended): both error cases at concrete inputs. -/
theorem parse_error_taxonomy_witness :
    parse "INVALID QUERY".data = .error .invalidSelect ∧
    parse "SELECT * FROM users".data = .error .missingWhere :=
  ⟨(parse_error_taxonomy "INVALID QUERY".data).1.mpr (by decide),
   (parse_error_taxonomy "SELECT * FROM users".data).2.1.mpr (by decide)⟩

/-- C7 (amended): a quoted token always stays a string; an unquoted
token becomes an integer when it contains no `.` and `int()` accepts
it, a float when it contains a `.` and `float()` accepts it, and a
string otherwise (in particular a dotless token that `int()` rejects
stays a string); and every parser-produced value arises from this rule
applied to the matched value token. -/
theorem value_typing_rule :
    (∀ tok : List Char, convertValue true tok = .strVal tok) ∧
    (∀ (tok : List Char) (n : Int), hasDot tok = false → pyIntParse tok = some n →
      convertValue false tok = .intVal n) ∧
    (∀ tok : List Char, hasDot tok = false → pyIntParse tok = none →
      convertValue false tok = .strVal tok) ∧
    (∀ tok : List Char, hasDot tok = true → pyFloatOk tok = true →
      convertValue false tok = .floatVal tok) ∧
    (∀ tok : List Char, hasDot tok = true → pyFloatOk tok = false →
      convertValue false tok = .strVal tok) ∧
    (∀ (s : List Char) (c : Condition), parseSingleCondition s = some c →
      ∃ quoted tok, c.value = convertValue quoted tok) := by
  refine ⟨?_, ?_, ?_, ?_, ?_, ?_⟩
  · intro tok; simp [convertValue]
  · intro tok n hd hi; simp [convertValue, hd, hi]
  · intro tok hd hi; simp [convertValue, hd, hi]
  · intro tok hd hf; simp [convertValue, hd, hf]
  · intro tok hd hf; simp [convertValue, hd, hf]
  · intro s c h
    obtain ⟨col, op, quoted, val, _, hc⟩ := parseSingle_shape h
    exact ⟨quoted, val, by rw [hc]⟩

/-- Witness for C7 (amended) at concrete tokens. -/
theorem value_typing_rule_witness :
    convertValue true "US".data = .strVal "US".data ∧
    convertValue false "25".data = .intVal 25 ∧
    convertValue false "abc".data = .strVal "abc".data ∧
    convertValue false "2.5".data = .floatVal "2.5".data ∧
    convertValue false "1.2.3".data = .strVal "1.2.3".data :=
  ⟨value_typing_rule.1 "US".data,
   value_typing_rule.2.1 "25".data 25 (by decide) (by decide),
   value_typing_rule.2.2.1 "abc".data (by decide) (by decide),
   value_typing_rule.2.2.2.1 "2.5".data (by decide) (by decide),
   value_typing_rule.2.2.2.2.1 "1.2.3".data (by decide) (by decide)⟩

/-! ## The operator group of a successful condition match -/

theorem tryOpSplits_operator {opRun rest : List Char} {k : Nat}
    {op val : List Char} {quoted : Bool}
    (h : tryOpSplits opRun rest k = some (op, quoted, val)) :
    ∃ j, 1 ≤ j ∧ j ≤ k ∧ op = opRun.take j := by
  induction k with
  | zero => exact Option.noConfusion h
  | succ k ih =>
    simp only [tryOpSplits] at h
    cases ht : tryAfterOp (opRun.drop (k + 1) ++ rest) with
    | none =>
      rw [ht] at h
      obtain ⟨j, hj1, hj2, hj3⟩ := ih h
      exact ⟨j, hj1, Nat.le_succ_of_le hj2, hj3⟩
    | some pr =>
      obtain ⟨q', v'⟩ := pr
      rw [ht] at h
      simp only [Option.some.injEq, Prod.mk.injEq] at h
      obtain ⟨hop, _, _⟩ := h
      exact ⟨k + 1, Nat.succ_le_succ (Nat.zero_le k), Nat.le_refl (k + 1), hop.symm⟩

theorem matchCondition_operator {s col op val : List Char} {quoted : Bool}
    (h : matchCondition s = some (col, op, quoted, val)) :
    op ≠ [] ∧ ∀ ch ∈ op, isOpChar ch = true := by
  simp only [matchCondition] at h
  split at h
  · exact Option.noConfusion h
  · split at h
    · exact Option.noConfusion h
    · rename_i hcol hopRun
      cases ht : tryOpSplits
          (((s.dropWhile isWordChar).dropWhile isPySpace).takeWhile isOpChar)
          (((s.dropWhile isWordChar).dropWhile isPySpace).dropWhile isOpChar)
          (((s.dropWhile isWordChar).dropWhile isPySpace).takeWhile isOpChar).length with
      | none => rw [ht] at h; exact Option.noConfusion h
      | some g =>
        obtain ⟨op', quoted', val'⟩ := g
        rw [ht] at h
        have hinj := Option.some.inj h
        have hop : op = op' := (congrArg (fun p => p.2.1) hinj).symm
        obtain ⟨j, hj1, _, hj3⟩ := tryOpSplits_operator ht
        subst hop
        rw [hj3]
        constructor
        · rw [Ne, List.take_eq_nil_iff]
          push_neg
          refine ⟨by omega, ?_⟩
          intro hnil
          rw [List.isEmpty_iff] at hopRun
          exact hopRun hnil
        · intro ch hch
          exact List.mem_takeWhile_imp (List.take_subset j _ hch)

theorem all_opChar_ne_LIKE {op : List Char}
    (hall : ∀ ch ∈ op, isOpChar ch = true) :
    op ≠ "LIKE".data ∧ op ≠ "ILIKE".data := by
  constructor
  · intro he
    have : isOpChar 'L' = true := hall 'L' (by rw [he]; decide)
    exact absurd this (by decide)
  · intro he
    have : isOpChar 'I' = true := hall 'I' (by rw [he]; decide)
    exact absurd this (by decide)

theorem baseScore_ne_700 {op : List Char}
    (h1 : op ≠ "LIKE".data) (h2 : op ≠ "ILIKE".data) : baseScore op ≠ 700 := by
  by_cases e1 : op = "=".data
  · rw [e1]; decide
  by_cases e2 : op = "==".data
  · rw [e2]; decide
  by_cases e3 : op = ">".data
  · rw [e3]; decide
  by_cases e4 : op = ">=".data
  · rw [e4]; decide
  by_cases e5 : op = "<".data
  · rw [e5]; decide
  by_cases e6 : op = "<=".data
  · rw [e6]; decide
  by_cases e7 : op = "!=".data
  · rw [e7]; decide
  by_cases e8 : op = "<>".data
  · rw [e8]; decide
  have hnone : List.lookup op selectivity_rules = none := by
    simp only [selectivity_rules, List.lookup,
      beq_eq_false_iff_ne.mpr e1, beq_eq_false_iff_ne.mpr e2,
      beq_eq_false_iff_ne.mpr e3, beq_eq_false_iff_ne.mpr e4,
      beq_eq_false_iff_ne.mpr e5, beq_eq_false_iff_ne.mpr e6,
      beq_eq_false_iff_ne.mpr e7, beq_eq_false_iff_ne.mpr e8,
      beq_eq_false_iff_ne.mpr h1, beq_eq_false_iff_ne.mpr h2]
  simp [baseScore, hnone]

/-- C10: every `Condition` constructed by `parse` has a non-empty
operator drawn only from the characters `=`, `<`, `>`, `!`; in
particular no parser-produced condition ever has operator `LIKE` or
`ILIKE`, so the scorer's 0.7 base-score entries (700 in thousandths)
are unreachable through the parse-then-score pipeline. -/
theorem parser_operators_are_op_runs (q : List Char) (pq : ParsedQuery)
    (hpq : parse q = .ok pq) :
    ∀ c ∈ pq.conditions,
      c.operator ≠ [] ∧ (∀ ch ∈ c.operator, isOpChar ch = true) ∧
        c.operator ≠ "LIKE".data ∧ c.operator ≠ "ILIKE".data ∧
        baseScore c.operator ≠ 700 := by
  intro c hc
  simp only [parse] at hpq
  cases hs : searchSelect (pyStrip q) with
  | none => rw [hs] at hpq; exact Except.noConfusion hpq
  | some table =>
    rw [hs] at hpq
    cases hw : searchWhere (pyStrip q) with
    | none => rw [hw] at hpq; exact Except.noConfusion hpq
    | some wc =>
      rw [hw] at hpq
      rw [← Except.ok.inj hpq] at hc
      simp only [parseConditions] at hc
      obtain ⟨part, _, hfp⟩ := List.mem_filterMap.mp hc
      simp only [fragParse] at hfp
      split at hfp
      · exact Option.noConfusion hfp
      · obtain ⟨col, op, quoted, val, hm, hcc⟩ := parseSingle_shape hfp
        obtain ⟨hne, hall⟩ := matchCondition_operator hm
        have hopc : c.operator = op := by rw [hcc]
        rw [hopc]
        obtain ⟨hl1, hl2⟩ := all_opChar_ne_LIKE hall
        exact ⟨hne, hall, hl1, hl2, baseScore_ne_700 hl1 hl2⟩

/-- Witness for C10 at a concrete query. -/
theorem parser_operators_are_op_runs_witness :
    (Condition.operator ⟨"age".data, ">".data, .intVal 25, "age > 25".data⟩) ≠ [] ∧
    (∀ ch ∈ Condition.operator ⟨"age".data, ">".data, .intVal 25, "age > 25".data⟩,
      isOpChar ch = true) ∧
    (Condition.operator ⟨"age".data, ">".data, .intVal 25, "age > 25".data⟩) ≠ "LIKE".data ∧
    (Condition.operator ⟨"age".data, ">".data, .intVal 25, "age > 25".data⟩) ≠ "ILIKE".data ∧
    baseScore (Condition.operator ⟨"age".data, ">".data, .intVal 25, "age > 25".data⟩) ≠ 700 :=
  parser_operators_are_op_runs "SELECT * FROM users WHERE age > 25".data
    ⟨"users".data, [⟨"age".data, ">".data, .intVal 25, "age > 25".data⟩],
      "SELECT * FROM users WHERE age > 25".data⟩
    (by decide) _ (by decide)

/-! ## Runs over disjoint character classes -/

theorem takeWhile_all_append {p : Char → Bool} {l : List Char} {c0 : Char} {r : List Char}
    (hall : ∀ c ∈ l, p c = true) (hc0 : p c0 = false) :
    (l ++ c0 :: r).takeWhile p = l := by
  induction l with
  | nil => simp [List.takeWhile_cons, hc0]
  | cons a t ih =>
    have ha : p a = true := hall a (List.mem_cons_self a t)
    simp [List.takeWhile_cons, ha,
      ih (fun c hc => hall c (List.mem_cons_of_mem a hc))]

theorem dropWhile_all_append {p : Char → Bool} {l : List Char} {c0 : Char} {r : List Char}
    (hall : ∀ c ∈ l, p c = true) (hc0 : p c0 = false) :
    (l ++ c0 :: r).dropWhile p = c0 :: r := by
  induction l with
  | nil => simp [List.dropWhile_cons, hc0]
  | cons a t ih =>
    have ha : p a = true := hall a (List.mem_cons_self a t)
    simp [List.dropWhile_cons, ha,
      ih (fun c hc => hall c (List.mem_cons_of_mem a hc))]

theorem space_cases {c : Char} (h : isPySpace c = true) :
    c = ' ' ∨ c = '\t' ∨ c = '\n' ∨ c = '\r' ∨ c = '\x0b' ∨ c = '\x0c' := by
  simpa [isPySpace, or_assoc] using h

theorem isWordChar_not_space {c : Char} (h : isWordChar c = true) : isPySpace c = false := by
  by_contra hc
  rcases space_cases (Bool.not_eq_false _ ▸ hc) with rfl | rfl | rfl | rfl | rfl | rfl <;>
    exact absurd h (by decide)

theorem isOpChar_not_space {c : Char} (h : isOpChar c = true) : isPySpace c = false := by
  by_contra hc
  rcases space_cases (Bool.not_eq_false _ ▸ hc) with rfl | rfl | rfl | rfl | rfl | rfl <;>
    exact absurd h (by decide)

theorem isQuoteChar_not_space {c : Char} (h : isQuoteChar c = true) : isPySpace c = false := by
  have : c = sqChar ∨ c = dqChar := by simpa [isQuoteChar] using h
  rcases this with rfl | rfl <;> decide

theorem isQuoteChar_not_value {c : Char} (h : isQuoteChar c = true) : isValueChar c = false := by
  simp [isValueChar, h]

/-! ## Parsing a well-formed quoted fragment -/

theorem tryAfterOp_quoted (q : Char) (text : List Char)
    (hq : isQuoteChar q = true) (htext : text ≠ [])
    (htextc : ∀ c ∈ text, isValueChar c = true) :
    tryAfterOp (' ' :: q :: (text ++ [q])) = some (true, text) := by
  have hqs : isPySpace q = false := isQuoteChar_not_space hq
  have hqv : isValueChar q = false := isQuoteChar_not_value hq
  have hv : (' ' :: q :: (text ++ [q])).dropWhile isPySpace = q :: (text ++ [q]) := by
    rw [List.dropWhile_cons]
    simp [show isPySpace ' ' = true from by decide, List.dropWhile_cons, hqs]
  have htw : (text ++ [q]).takeWhile isValueChar = text :=
    takeWhile_all_append htextc hqv
  have hdw : (text ++ [q]).dropWhile isValueChar = [q] :=
    dropWhile_all_append htextc hqv
  simp only [tryAfterOp, hv, hq, htw, hdw, if_true]
  simp [List.isEmpty_iff, htext]

theorem matchCondition_quoted_fragment (col op text : List Char) (q : Char)
    (hcol : col ≠ []) (hcolw : ∀ c ∈ col, isWordChar c = true)
    (hop : op ≠ []) (hopc : ∀ c ∈ op, isOpChar c = true)
    (hq : isQuoteChar q = true)
    (htext : text ≠ []) (htextc : ∀ c ∈ text, isValueChar c = true) :
    matchCondition (col ++ ' ' :: (op ++ ' ' :: q :: (text ++ [q])))
      = some (col, op, true, text) := by
  have h1 : (col ++ ' ' :: (op ++ ' ' :: q :: (text ++ [q]))).takeWhile isWordChar = col :=
    takeWhile_all_append hcolw (by decide)
  have h2 : (col ++ ' ' :: (op ++ ' ' :: q :: (text ++ [q]))).dropWhile isWordChar
      = ' ' :: (op ++ ' ' :: q :: (text ++ [q])) :=
    dropWhile_all_append hcolw (by decide)
  obtain ⟨o0, op', rfl⟩ : ∃ o0 op', op = o0 :: op' := by
    cases op with
    | nil => exact absurd rfl hop
    | cons a b => exact ⟨a, b, rfl⟩
  have ho0 : isPySpace o0 = false :=
    isOpChar_not_space (hopc o0 (List.mem_cons_self _ _))
  have h3 : (' ' :: ((o0 :: op') ++ ' ' :: q :: (text ++ [q]))).dropWhile isPySpace
      = (o0 :: op') ++ ' ' :: q :: (text ++ [q]) := by
    rw [List.dropWhile_cons]
    simp [show isPySpace ' ' = true from by decide, List.dropWhile_cons, ho0]
  have h4 : ((o0 :: op') ++ ' ' :: q :: (text ++ [q])).takeWhile isOpChar = o0 :: op' :=
    takeWhile_all_append hopc (by decide)
  have h5 : ((o0 :: op') ++ ' ' :: q :: (text ++ [q])).dropWhile isOpChar
      = ' ' :: q :: (text ++ [q]) :=
    dropWhile_all_append hopc (by decide)
  have h6 : tryOpSplits (o0 :: op') (' ' :: q :: (text ++ [q]))
      (o0 :: op').length = some (o0 :: op', true, text) := by
    have hlen : (o0 :: op').length = op'.length + 1 := rfl
    have hdrop : (o0 :: op').drop (op'.length + 1) = [] := by
      rw [← hlen, List.drop_length]
    have htake : (o0 :: op').take (op'.length + 1) = o0 :: op' := by
      rw [← hlen, List.take_length]
    rw [hlen]
    simp only [tryOpSplits, hdrop, List.nil_append,
      tryAfterOp_quoted q text hq htext htextc, htake]
  simp only [matchCondition, h1, h2, h3, h4, h5, h6]
  simp [List.isEmpty_iff, hcol]

/-- C2 (amended): a WHERE-clause fragment
`<identifier> <operator> <quote><text><same-quote>` parses into a
`Condition` whose value is the quoted text as a string, provided the
quoted text is a non-empty run of characters containing no whitespace
and no quote character (the value class of the regex excludes both
even inside quotes, which is why text containing whitespace fails the
original claim). -/
theorem quoted_fragment_parses (col op text : List Char) (q : Char)
    (hcol : col ≠ []) (hcolw : ∀ c ∈ col, isWordChar c = true)
    (hop : op ≠ []) (hopc : ∀ c ∈ op, isOpChar c = true)
    (hq : isQuoteChar q = true)
    (htext : text ≠ []) (htextc : ∀ c ∈ text, isValueChar c = true) :
    parseSingleCondition (col ++ ' ' :: (op ++ ' ' :: q :: (text ++ [q])))
      = some ⟨col, op, .strVal text,
          col ++ ' ' :: (op ++ ' ' :: q :: (text ++ [q]))⟩ := by
  have hstrip : pyStrip (col ++ ' ' :: (op ++ ' ' :: q :: (text ++ [q])))
      = col ++ ' ' :: (op ++ ' ' :: q :: (text ++ [q])) := by
    apply pyStrip_eq_self
    · intro c hc
      obtain ⟨c0, col', rfl⟩ : ∃ c0 col', col = c0 :: col' := by
        cases col with
        | nil => exact absurd rfl hcol
        | cons a b => exact ⟨a, b, rfl⟩
      rw [List.cons_append, List.head?_cons] at hc
      rw [← Option.some.inj hc]
      exact isWordChar_not_space (hcolw c0 (List.mem_cons_self _ _))
    · intro c hc
      have hshape : col ++ ' ' :: (op ++ ' ' :: q :: (text ++ [q]))
          = (col ++ ' ' :: (op ++ ' ' :: q :: text)) ++ [q] := by
        simp
      rw [hshape, List.getLast?_append] at hc
      have : c = q := by simpa using hc.symm
      rw [this]
      exact isQuoteChar_not_space hq
  simp only [parseSingleCondition, hstrip,
    matchCondition_quoted_fragment col op text q hcol hcolw hop hopc hq htext htextc]
  simp [convertValue]

/-- Witness for C2 (amended): `name = 'NYC'` parses with string value
`NYC`. -/
theorem quoted_fragment_parses_witness :
    parseSingleCondition
        ("name".data ++ ' ' :: ("=".data ++ ' ' :: sqChar :: ("NYC".data ++ [sqChar])))
      = some ⟨"name".data, "=".data, .strVal "NYC".data,
          "name".data ++ ' ' :: ("=".data ++ ' ' :: sqChar :: ("NYC".data ++ [sqChar]))⟩ :=
  quoted_fragment_parses "name".data "=".data "NYC".data sqChar
    (by decide) (by decide) (by decide) (by decide) (by decide) (by decide) (by decide)
